import Mathlib

/-!
Verification of the multi-project registry and request-routing core of the
ember-language-server repository (src/project-roots.ts and src/server.ts),
as a shallow embedding in Lean 4.

JavaScript strings are Lean `String`s, JS `undefined`-able values are
`Option`s, JS exceptions are `Except String`, the JS `Map` is an
insertion-ordered association list with unique keys, and functions imported
from modules outside the two embedded files (walk-sync, layout-helpers,
addon-api, vscode-languageserver) are abstract parameters bundled into
environment structures, modelled from the specification where their
behaviour matters.
-/

/-! ## JS string and path helpers -/

/-- JS `path.indexOf(root) === 0` from `projectForUri`: `r` is a string
prefix of `p` (true for the empty `r`, as in JS). -/
def isRootPrefixOf (r p : String) : Bool :=
  r.data.isPrefixOf p.data

/-- JS `s.endsWith(t)` (used as `filePath.endsWith('package.json')`). -/
def jsEndsWith (s t : String) : Bool :=
  t.data.isSuffixOf s.data

/-- The last `/`-separated component of a posix path: the characters after
the final slash. Models the basename notion used by the `**/name` globs
that `walkSync` is called with. -/
def pathBasename (s : String) : String :=
  String.mk ((s.data.reverse.takeWhile (fun c => c != '/')).reverse)

/-- Node `path.extname` (posix), for paths without trailing slashes: the
substring of the basename from its last dot, `""` when the basename has no
dot or only a leading dot. -/
def extname (p : String) : String :=
  let b := pathBasename p
  let afterDot := b.data.reverse.takeWhile (fun c => c != '.')
  if b.data.contains '.' then
    let withDot := '.' :: afterDot.reverse
    if withDot.length = b.data.length then "" else String.mk withDot
  else ""

/-- Node `path.join a b` for a relative dot-free second segment, as
produced by `walkSync`: concatenation with a single separating slash. -/
def pathJoin (a b : String) : String :=
  if a = "" then b
  else if a.data.getLast? = some '/' then a ++ b
  else a ++ "/" ++ b

/-- Node `path.dirname` (posix) for paths without trailing slashes: the
path with its basename and the final slash removed; `"."` when there is no
slash and `"/"` when the only slash leads. -/
def pathDirname (s : String) : String :=
  match s.data.reverse.dropWhile (fun c => c != '/') with
  | [] => "."
  | _ :: rest => if rest = [] then "/" else String.mk rest.reverse

/-- JS truthiness of a string that may be `undefined`: `undefined` and
`""` are falsy. -/
def jsTruthy : Option String → Bool
  | none => false
  | some s => !(s = "")

/-! ## Data model: providers, projects and the addon environment -/

/-- A document symbol, abstracted to its rendered form (the symbol
extraction algorithms are external collaborators). -/
abbrev SymbolInformation := String

/-- A document symbol provider as `server.ts` consumes it: the file
extensions it declares and its `process(content)` entry point. -/
structure DocumentSymbolProvider where
  extensions : List String
  process : String → List SymbolInformation

/-- An addon init hook: invoked with the project root and the server
handle (abstracted to a `Nat` identifier), and allowed to throw. -/
structure InitHandler where
  run : String → Nat → Except String Unit

/-- Modelled from the spec: the CapabilityProviderSet slots that this
development exercises — the ordered init hooks and the ordered,
extension-tagged symbol providers. The completion, definition and
reference slots of the set are never consulted by the embedded handlers
and are omitted. -/
structure ProjectProviders where
  initHandlers : List InitHandler
  symbolProviders : List DocumentSymbolProvider

/-- Modelled from the spec: the addon-api collaborators of
`project-roots.ts`. `collectProjectProviders` composes built-in providers
with the addon contributions discovered under a root (so it depends on the
disk contents at call time); `initBuiltinProviders` is the fixed built-in
set. -/
structure AddonEnv where
  collectProjectProviders : String → ProjectProviders
  initBuiltinProviders : ProjectProviders

/-- The `Project` class of `project-roots.ts`: a root with its composed
provider set and the builtin set, both captured at construction. -/
structure Project where
  root : String
  providers : ProjectProviders
  builtinProviders : ProjectProviders

/-- `new Project(root)`. -/
def mkProject (env : AddonEnv) (root : String) : Project :=
  { root := root
    providers := env.collectProjectProviders root
    builtinProviders := env.initBuiltinProviders }

/-! ## The project registry (`project-roots.ts`) -/

/-- JS `Map.set` on an insertion-ordered association list: replace the
value in place when the key is present, append otherwise. -/
def mapSet {α : Type} (m : List (String × α)) (k : String) (v : α) :
    List (String × α) :=
  match m with
  | [] => [(k, v)]
  | (k2, v2) :: rest =>
    if k2 = k then (k2, v) :: rest else (k2, v2) :: mapSet rest k v

/-- Observable registry events: a `new Project` construction being bound
into the map, and each init-hook invocation with its arguments and
outcome (the try/catch in `onProjectAdd` swallows the outcome). -/
inductive RegEvent
  | projectCreated (root : String)
  | initHookCalled (handler : InitHandler) (path : String) (server : Nat)
      (outcome : Except String Unit)

/-- The state of a `ProjectRoots` instance, with the event trace of the
operations applied so far. -/
structure RegState where
  workspaceRoot : String
  projects : List (String × Project)
  events : List RegEvent

/-- A fresh `ProjectRoots` instance. -/
def emptyReg : RegState :=
  { workspaceRoot := "", projects := [], events := [] }

/-- The `forEach` over `project.providers.initHandlers` in `onProjectAdd`:
each handler is run inside its own try/catch, so the recursion continues
whatever the outcome; the events record call order, arguments and
outcome. -/
def runInitHandlers : List InitHandler → String → Nat → List RegEvent
  | [], _, _ => []
  | h :: rest, p, s =>
    RegEvent.initHookCalled h p s (h.run p s) :: runInitHandlers rest p s

/-- `ProjectRoots.onProjectAdd`: unconditionally construct a `Project`,
bind it under its root, then invoke every init handler of its composed
provider set, swallowing exceptions per handler. -/
def onProjectAdd (env : AddonEnv) (path : String) (server : Nat)
    (st : RegState) : RegState :=
  let project := mkProject env path
  { st with
    projects := mapSet st.projects path project
    events := st.events ++ RegEvent.projectCreated path ::
      runInitHandlers project.providers.initHandlers path server }

/-- The reducer `(a, b) => (a.length > b.length ? a : b)` from
`projectForUri`. -/
def pickLonger (a b : String) : String :=
  if a.length > b.length then a else b

/-- `ProjectRoots.projectForUri`, taking the result of `uriToFilePath`
(an external collaborator) as an `Option String`: falsy paths return
`undefined`; otherwise the registered roots are filtered to prefixes of
the path, reduced to the longest with `""` as initial accumulator, and
the map is consulted at that root. -/
def projectForUri (st : RegState) (uriPath : Option String) :
    Option Project :=
  match uriPath with
  | none => none
  | some p =>
    if p = "" then none
    else
      let root := ((st.projects.map Prod.fst).filter
        (fun r => isRootPrefixOf r p)).foldl pickLonger ""
      st.projects.lookup root

/-- Modelled from the spec: the external collaborators of
`ProjectRoots.initialize` — the `walkSync` scan (already restricted to the
two marker globs and the ignore list) and the two layout-helper
classification predicates, which may throw. -/
structure ScanEnv where
  walkSync : String → List String
  isGlimmerNativeProject : String → Except String Bool
  isGlimmerXProject : String → Except String Bool

/-- The short-circuit disjunction
`isGlimmerNativeProject(fullPath) || isGlimmerXProject(fullPath)`:
a throw in either consulted predicate propagates. -/
def classifyCandidate (env : ScanEnv) (fullPath : String) :
    Except String Bool :=
  match env.isGlimmerNativeProject fullPath with
  | Except.error e => Except.error e
  | Except.ok true => Except.ok true
  | Except.ok false => env.isGlimmerXProject fullPath

/-- The body of the `roots.forEach` in `ProjectRoots.initialize`: join the
candidate onto the workspace root, take its directory, and either register
unconditionally (build-config marker) or classify-then-register inside a
try/catch that drops the candidate on a throw. -/
def processCandidate (env : ScanEnv) (aenv : AddonEnv) (ws : String)
    (server : Nat) (st : RegState) (rootPath : String) : RegState :=
  let filePath := pathJoin ws rootPath
  let fullPath := pathDirname filePath
  if jsEndsWith filePath "package.json" then
    match classifyCandidate env fullPath with
    | Except.ok true => onProjectAdd aenv fullPath server st
    | Except.ok false => st
    | Except.error _ => st
  else
    onProjectAdd aenv fullPath server st

/-- The candidate loop of `ProjectRoots.initialize`. -/
def scanCandidates (env : ScanEnv) (aenv : AddonEnv) (ws : String)
    (server : Nat) : List String → RegState → RegState
  | [], st => st
  | c :: rest, st =>
    scanCandidates env aenv ws server rest
      (processCandidate env aenv ws server st c)

/-- `ProjectRoots.initialize`: record the workspace root, run the scan and
process every candidate in order. (The source name is a Lean keyword.) -/
def scanWorkspace (env : ScanEnv) (aenv : AddonEnv) (ws : String)
    (server : Nat) (st : RegState) : RegState :=
  scanCandidates env aenv ws server (env.walkSync ws)
    { st with workspaceRoot := ws }

/-- A registry-mutating operation, for claims quantifying over operation
sequences: a full scan or a single explicit registration. Each operation
carries the environments observed at its own execution time. -/
inductive RegistryOp
  | scanOp (env : ScanEnv) (aenv : AddonEnv) (ws : String) (server : Nat)
  | addOp (aenv : AddonEnv) (path : String) (server : Nat)

/-- Apply one registry operation. -/
def applyOp : RegistryOp → RegState → RegState
  | RegistryOp.scanOp e a w s, st => scanWorkspace e a w s st
  | RegistryOp.addOp a p s, st => onProjectAdd a p s st

/-- Apply a sequence of registry operations in order. -/
def applyOps (ops : List RegistryOp) (st : RegState) : RegState :=
  ops.foldl (fun st op => applyOp op st) st

/-- The roots whose `Project` construction the trace records, in order. -/
def addedRoots (evs : List RegEvent) : List String :=
  evs.filterMap (fun e =>
    match e with
    | RegEvent.projectCreated r => some r
    | _ => none)

/-! ## The server (`server.ts`) -/

/-- A completion item; only its label is exercised. -/
structure CompletionItem where
  label : String
deriving DecidableEq

/-- The position parameters a completion provider receives; providers are
external collaborators, so the payload is never inspected here. -/
structure TextDocumentPositionParams where
  uri : String
  line : Nat
  character : Nat

/-- A completion provider (template- or script-oriented): its
`provideCompletions` may throw/reject. -/
structure CompletionProvider where
  provideCompletions :
    TextDocumentPositionParams → Except String (List CompletionItem)

/-- The disk, as `fs.readFileSync` sees it. -/
abbrev FileSystem := String → Option String

/-- `fs.readFileSync(path, 'utf-8')`: the content, or a thrown `ENOENT`
error when the file is not readable. -/
def readFileSync (fs : FileSystem) (p : String) : Except String String :=
  match fs p with
  | some content => Except.ok content
  | none => Except.error ("ENOENT: no such file " ++ p)

/-- `Server.onCompletion`: both providers are awaited inside a single
try/catch (`Promise.all` over two already-awaited calls, so the template
provider is consulted first and a throw skips the script provider); on any
throw the accumulated — still empty — item array is returned. -/
def onCompletion (tp sp : CompletionProvider)
    (pos : TextDocumentPositionParams) : List CompletionItem :=
  match tp.provideCompletions pos with
  | Except.error _ => []
  | Except.ok templateCompletions =>
    match sp.provideCompletions pos with
    | Except.error _ => []
    | Except.ok scriptCompletions => templateCompletions ++ scriptCompletions

/-- `Server.onDocumentSymbol`, with the result of `uriToFilePath` passed
as an `Option String`. Returns the response (the unguarded
`fs.readFileSync` may throw) together with the list of providers whose
`process` was actually invoked. -/
def onDocumentSymbol (fs : FileSystem)
    (dsp : List DocumentSymbolProvider) (uriPath : Option String) :
    Except String (List SymbolInformation) × List DocumentSymbolProvider :=
  match uriPath with
  | none => (Except.ok [], [])
  | some filePath =>
    if filePath = "" then (Except.ok [], [])
    else
      let extension := extname filePath
      let providers := dsp.filter
        (fun provider => provider.extensions.contains extension)
      if providers.length = 0 then (Except.ok [], [])
      else
        match readFileSync fs filePath with
        | Except.error e => (Except.error e, [])
        | Except.ok content =>
          (Except.ok ((providers.map
            (fun provider => provider.process content)).foldl
              (fun a b => a ++ b) []), providers)

/-- The `completionProvider` capability record. -/
structure CompletionOptions where
  resolveProvider : Bool
  triggerCharacters : List String
deriving DecidableEq

/-- The `executeCommandProvider` capability record. -/
structure ExecuteCommandOptions where
  commands : List String
deriving DecidableEq

/-- The capability advertisement shape; absent fields of the JS object
literal are `none` (the empty object `{}` is all-`none`). The
text-synchronization mode is the document manager's numeric `syncKind`. -/
structure ServerCapabilities where
  definitionProvider : Option Bool
  executeCommandProvider : Option ExecuteCommandOptions
  documentSymbolProvider : Option Bool
  referencesProvider : Option Bool
  completionProvider : Option CompletionOptions
  textDocumentSync : Option Nat
deriving DecidableEq

/-- The empty capability set `{ capabilities: {} }` returns. -/
def emptyCapabilities : ServerCapabilities :=
  { definitionProvider := none
    executeCommandProvider := none
    documentSymbolProvider := none
    referencesProvider := none
    completionProvider := none
    textDocumentSync := none }

/-- The `capabilities` object literal of `server.ts`. -/
def declaredCapabilities : ServerCapabilities :=
  { definitionProvider := some true
    executeCommandProvider := some { commands := ["els:registerProjectPath"] }
    documentSymbolProvider := some true
    referencesProvider := some true
    completionProvider := some
      { resolveProvider := true
        triggerCharacters :=
          [".", "::", "=", "/", "\x7b\x7b", "(", "<", "@", "this."] }
    textDocumentSync := none }

/-- The response of the `initialize` request. -/
structure InitResult where
  capabilities : ServerCapabilities
deriving DecidableEq

/-- The server state the embedded handlers touch: the registry, the
document symbol provider array, and the patchable `capabilities` field. -/
structure ServerState where
  registry : RegState
  documentSymbolProviders : List DocumentSymbolProvider
  capabilities : ServerCapabilities

/-- `Server.onExecute`: only `els:registerProjectPath` is recognized, its
second argument is registered through `onProjectAdd`, and the parameters
are echoed back. (A recognized command with no second argument would pass
JS `undefined` to `onProjectAdd`; that corner is outside the embedded
input space.) -/
def onExecute (env : AddonEnv) (server : Nat) (st : ServerState)
    (params : List String) : ServerState × List String :=
  match params with
  | p0 :: p1 :: _ =>
    if p0 = "els:registerProjectPath" then
      ({ st with registry := onProjectAdd env p1 server st.registry }, params)
    else (st, params)
  | _ => (st, params)

/-- `onDocumentSymbol` as the server dispatches it: the provider array is
read from the server state (never from the registry). -/
def serverDocumentSymbol (fs : FileSystem) (st : ServerState)
    (uriPath : Option String) :
    Except String (List SymbolInformation) × List DocumentSymbolProvider :=
  onDocumentSymbol fs st.documentSymbolProviders uriPath

/-- `rootPath = rootUri ? uriToFilePath(rootUri) : rootPath` from
`Server.onInitialize`: a truthy `rootUri` is resolved through the external
`uriToFilePath` (with no fallback to `rootPath` on failure); otherwise the
`rootPath` parameter is used as-is. -/
def resolveWorkspaceRoot (u2f : String → Option String)
    (rootUri rootPath : Option String) : Option String :=
  if jsTruthy rootUri then
    match rootUri with
    | some u => u2f u
    | none => none
  else rootPath

/-- `Server.onInitialize`: with no resolvable workspace root the response
is `{ capabilities: {} }` (returned normally, not thrown); otherwise the
registry is scanned from the root and the response is the server's
`capabilities` object merged (`Object.assign`) with the document manager's
`textDocumentSync` mode. -/
def onInitRequest (u2f : String → Option String) (env : ScanEnv)
    (aenv : AddonEnv) (syncKind : Nat) (server : Nat) (st : ServerState)
    (rootUri rootPath : Option String) : InitResult × ServerState :=
  let resolved := resolveWorkspaceRoot u2f rootUri rootPath
  match resolved, jsTruthy resolved with
  | some root, true =>
    ({ capabilities :=
        { st.capabilities with textDocumentSync := some syncKind } },
     { st with registry := scanWorkspace env aenv root server st.registry })
  | _, _ => ({ capabilities := emptyCapabilities }, st)

/-- Modelled from the spec: document-symbol handling as §4.4 describes it
for a document with an owning project — the same pipeline as
`onDocumentSymbol`, but selecting from the owning project's composed
symbol provider set instead of the server's global array. Used only to
compare the specified against the implemented behaviour. -/
def specProjectDocumentSymbol (fs : FileSystem) (proj : Project)
    (uriPath : Option String) :
    Except String (List SymbolInformation) × List DocumentSymbolProvider :=
  onDocumentSymbol fs proj.providers.symbolProviders uriPath

/-! ## Concrete instances used by witnesses and counterexamples -/

/-- An empty provider set. -/
def trivialProviders : ProjectProviders :=
  { initHandlers := [], symbolProviders := [] }

/-- An addon environment contributing nothing. -/
def envTrivial : AddonEnv :=
  { collectProjectProviders := fun _ => trivialProviders
    initBuiltinProviders := trivialProviders }

/-- A registry holding the nested roots `/ws` and `/ws/pkgA`. -/
def c1Reg : RegState :=
  onProjectAdd envTrivial "/ws/pkgA" 0 (onProjectAdd envTrivial "/ws" 0 emptyReg)

/-- A built-in-style symbol provider for `.js` documents. -/
def globalJsProvider : DocumentSymbolProvider :=
  { extensions := [".js"], process := fun _ => ["global-symbol"] }

/-- An addon-contributed symbol provider for `.js` documents, with output
distinguishable from `globalJsProvider`. -/
def addonJsProvider : DocumentSymbolProvider :=
  { extensions := [".js"], process := fun _ => ["addon-symbol"] }

/-- The composed provider set of the `/ws/pkgB` project: the addon
contributes a symbol provider. -/
def pkgBProviders : ProjectProviders :=
  { initHandlers := [], symbolProviders := [addonJsProvider] }

/-- The addon environment in which `/ws/pkgB` composes `pkgBProviders`. -/
def pkgBEnv : AddonEnv :=
  { collectProjectProviders := fun _ => pkgBProviders
    initBuiltinProviders := trivialProviders }

/-- A disk holding only `/ws/pkgB/app.js`. -/
def fsPkgB : FileSystem :=
  fun p => if p = "/ws/pkgB/app.js" then some "content" else none

/-- A server before any project registration, with the global symbol
provider array. -/
def serverSt0 : ServerState :=
  { registry := emptyReg
    documentSymbolProviders := [globalJsProvider]
    capabilities := declaredCapabilities }

/-- The server after executing
`els:registerProjectPath /ws/pkgB`. -/
def serverStPkgB : ServerState :=
  (onExecute pkgBEnv 0 serverSt0 ["els:registerProjectPath", "/ws/pkgB"]).1

/-- A template completion provider that always throws. -/
def tpThrow : CompletionProvider :=
  { provideCompletions := fun _ => Except.error "template provider failed" }

/-- A script completion provider returning `[{label:"foo"}]`. -/
def spFoo : CompletionProvider :=
  { provideCompletions := fun _ => Except.ok [{ label := "foo" }] }

/-- A template completion provider returning `[{label:"bar"}]`. -/
def tpBar : CompletionProvider :=
  { provideCompletions := fun _ => Except.ok [{ label := "bar" }] }

/-- A concrete completion request position. -/
def pos0 : TextDocumentPositionParams :=
  { uri := "file:///ws/pkgB/app.js", line := 0, character := 0 }

/-- A disk on which no file is readable. -/
def fsNone : FileSystem := fun _ => none

/-- The registry after registering `/ws/app` once, under `envTrivial`. -/
def c5St1 : RegState := onProjectAdd envTrivial "/ws/app" 0 emptyReg

/-- The registry after registering `/ws/app` a second time, after the
disk changed so that its composed provider set differs. -/
def c5St2 : RegState := onProjectAdd pkgBEnv "/ws/app" 0 c5St1

/-- A scan environment: four candidates under `/ws` — a passing manifest,
a manifest whose classification throws, an unconditional build-config
marker after the throwing one, and a manifest classified negatively. -/
def c7Scan : ScanEnv :=
  { walkSync := fun _ =>
      ["pkgA/package.json", "bad/package.json",
       "pkgB/ember-cli-build.js", "plain/package.json"]
    isGlimmerNativeProject := fun p =>
      if p = "/ws/pkgA" then Except.ok true
      else if p = "/ws/bad" then Except.error "malformed manifest"
      else Except.ok false
    isGlimmerXProject := fun _ => Except.ok false }

/-- A `uriToFilePath` resolving only the `file:` scheme workspace URI. -/
def u2f9 : String → Option String :=
  fun u => if u = "file:///ws" then some "/ws" else none

/-- Modelled from the spec: the per-candidate promotion rule of §4.1 in
the claim's own terms — the containing directory of a build-config marker
(`ember-cli-build.js`) is promoted unconditionally; the containing
directory of a package manifest (`package.json`) is promoted exactly when
the kind-classification predicate succeeds with a positive answer; a
predicate throw drops the candidate. Used to compare the specified
promotion rule with the scan the code performs. -/
def specPromotedRoot (env : ScanEnv) (ws c : String) : Option String :=
  let d := pathDirname (pathJoin ws c)
  if pathBasename c = "ember-cli-build.js" then some d
  else
    match classifyCandidate env d with
    | Except.ok true => some d
    | _ => none

/-! ## Helper lemmas -/

/-- The reducer returns one of its two arguments. -/
theorem pickLonger_cases (a b : String) : pickLonger a b = a ∨ pickLonger a b = b := by
  unfold pickLonger
  split
  · exact Or.inl rfl
  · exact Or.inr rfl

/-- The reducer's result is at least as long as its left argument. -/
theorem length_le_pickLonger_left (a b : String) : a.length ≤ (pickLonger a b).length := by
  unfold pickLonger
  split
  · exact Nat.le_refl _
  · omega

/-- The reducer's result is at least as long as its right argument. -/
theorem length_le_pickLonger_right (a b : String) : b.length ≤ (pickLonger a b).length := by
  unfold pickLonger
  split
  · omega
  · exact Nat.le_refl _

/-- The reduce over the matching roots returns the accumulator or one of
the list's elements. -/
theorem foldl_pickLonger_mem (l : List String) (acc : String) :
    l.foldl pickLonger acc ∈ acc :: l := by
  induction l generalizing acc with
  | nil => simp
  | cons x xs ih =>
    rw [List.foldl_cons]
    rcases List.mem_cons.mp (ih (pickLonger acc x)) with h1 | h1
    · rcases pickLonger_cases acc x with h2 | h2
      · rw [h1, h2]
        exact List.mem_cons_self _ _
      · rw [h1, h2]
        exact List.mem_cons_of_mem _ (List.mem_cons_self _ _)
    · exact List.mem_cons_of_mem _ (List.mem_cons_of_mem _ h1)

/-- The reduce over the matching roots yields a maximal-length element. -/
theorem foldl_pickLonger_maxlen (l : List String) (acc : String) :
    ∀ x ∈ acc :: l, x.length ≤ (l.foldl pickLonger acc).length := by
  induction l generalizing acc with
  | nil =>
    intro x hx
    rw [List.foldl_nil]
    rcases List.mem_cons.mp hx with h | h
    · rw [h]
    · simp at h
  | cons y ys ih =>
    intro x hx
    rw [List.foldl_cons]
    rcases List.mem_cons.mp hx with h | h
    · calc x.length ≤ (pickLonger acc y).length := h ▸ length_le_pickLonger_left acc y
        _ ≤ _ := ih (pickLonger acc y) _ (List.mem_cons_self _ _)
    · rcases List.mem_cons.mp h with h2 | h2
      · calc x.length ≤ (pickLonger acc y).length := h2 ▸ length_le_pickLonger_right acc y
          _ ≤ _ := ih (pickLonger acc y) _ (List.mem_cons_self _ _)
      · exact ih (pickLonger acc y) x (List.mem_cons_of_mem _ h2)

/-- A key present in the association list is found by `lookup`. -/
theorem lookup_isSome_of_mem {α : Type} (m : List (String × α)) (k : String)
    (hk : k ∈ m.map Prod.fst) : (m.lookup k).isSome = true := by
  induction m with
  | nil => simp at hk
  | cons kv rest ih =>
    rcases kv with ⟨k2, v2⟩
    by_cases he : k = k2
    · simp [List.lookup, he]
    · rw [List.map_cons] at hk
      rcases List.mem_cons.mp hk with h | h
      · exact absurd h he
      · simp only [List.lookup]
        rw [show (k == k2) = false by simp [he]]
        exact ih h

/-- A key absent from the association list is not found by `lookup`. -/
theorem lookup_eq_none_of_not_mem {α : Type} (m : List (String × α)) (k : String)
    (hk : k ∉ m.map Prod.fst) : m.lookup k = none := by
  induction m with
  | nil => rfl
  | cons kv rest ih =>
    rcases kv with ⟨k2, v2⟩
    rw [List.map_cons] at hk
    have h1 : ¬(k = k2) := fun he => hk (he ▸ List.mem_cons_self _ _)
    have h2 : k ∉ rest.map Prod.fst := fun hm => hk (List.mem_cons_of_mem _ hm)
    simp only [List.lookup]
    rw [show (k == k2) = false by simp [h1]]
    exact ih h2

/-- A nonempty string has nonempty character data. -/
theorem string_data_ne_nil {s : String} (h : s ≠ "") : s.data ≠ [] := by
  intro hd
  apply h
  cases s with
  | mk data =>
    cases hd
    rfl

/-- A string of length zero is the empty string. -/
theorem string_empty_of_length_zero {s : String} (h : s.length = 0) : s = "" := by
  cases s with
  | mk data =>
    cases data with
    | nil => rfl
    | cons a l => simp [String.length] at h

/-! ## C1: longest-prefix project lookup -/

/-- C1. For every registry whose registered roots are non-empty strings
(ProjectRoot is an absolute directory path) and every document URI whose
file path is `D`, `projectForUri` returns the Project bound to the root
that is a string prefix of `D` of maximal length among all registered
prefix roots, and returns `none` when no registered root is a prefix of
`D`. -/
theorem projectForUri_longest_root (st : RegState) (D : String)
    (hroots : ∀ r ∈ st.projects.map Prod.fst, r ≠ "") :
    (∃ r, r ∈ st.projects.map Prod.fst ∧ isRootPrefixOf r D = true ∧
      (∀ r2 ∈ st.projects.map Prod.fst, isRootPrefixOf r2 D = true →
        r2.length ≤ r.length) ∧
      projectForUri st (some D) = st.projects.lookup r ∧
      (st.projects.lookup r).isSome = true) ∨
    ((∀ r ∈ st.projects.map Prod.fst, isRootPrefixOf r D = false) ∧
      projectForUri st (some D) = none) := by
  by_cases hD : D = ""
  · subst hD
    right
    constructor
    · intro r hr
      have hd := string_data_ne_nil (hroots r hr)
      unfold isRootPrefixOf
      cases hdata : r.data with
      | nil => exact absurd hdata hd
      | cons a l => rfl
    · simp [projectForUri]
  · have hunfold : projectForUri st (some D) =
        st.projects.lookup (((st.projects.map Prod.fst).filter
          (fun r => isRootPrefixOf r D)).foldl pickLonger "") := by
      simp [projectForUri, hD]
    by_cases hMnil : (st.projects.map Prod.fst).filter
        (fun r => isRootPrefixOf r D) = []
    · right
      have hall : ∀ r ∈ st.projects.map Prod.fst, isRootPrefixOf r D = false := by
        intro r hr
        have hnp := List.filter_eq_nil_iff.mp hMnil r hr
        cases hb : isRootPrefixOf r D
        · rfl
        · exact absurd hb hnp
      refine ⟨hall, ?_⟩
      rw [hunfold, hMnil, List.foldl_nil]
      exact lookup_eq_none_of_not_mem _ _ (fun hmem => hroots "" hmem rfl)
    · left
      rcases List.mem_cons.mp (foldl_pickLonger_mem ((st.projects.map Prod.fst).filter
          (fun r => isRootPrefixOf r D)) "") with hfold0 | hfoldM
      · exfalso
        obtain ⟨m, hm⟩ := List.exists_mem_of_ne_nil _ hMnil
        have hle := foldl_pickLonger_maxlen ((st.projects.map Prod.fst).filter
          (fun r => isRootPrefixOf r D)) "" m (List.mem_cons_of_mem _ hm)
        rw [hfold0] at hle
        have hm0 : m = "" := string_empty_of_length_zero (Nat.le_zero.mp hle)
        exact hroots m (List.mem_of_mem_filter hm) hm0
      · refine ⟨_, List.mem_of_mem_filter hfoldM,
          (List.mem_filter.mp hfoldM).2, ?_, hunfold,
          lookup_isSome_of_mem _ _ (List.mem_of_mem_filter hfoldM)⟩
        intro r2 hr2 hpre
        exact foldl_pickLonger_maxlen _ "" r2
          (List.mem_cons_of_mem _ (List.mem_filter.mpr ⟨hr2, hpre⟩))

/-- Witness for C1: the registry `c1Reg` holds the nested roots `/ws` and
`/ws/pkgA`, both non-empty, so the theorem applies to the document path
`/ws/pkgA/app.js`. -/
theorem projectForUri_longest_root_witness :
    (∀ r ∈ c1Reg.projects.map Prod.fst, r ≠ "") ∧
    ((∃ r, r ∈ c1Reg.projects.map Prod.fst ∧
      isRootPrefixOf r "/ws/pkgA/app.js" = true ∧
      (∀ r2 ∈ c1Reg.projects.map Prod.fst,
        isRootPrefixOf r2 "/ws/pkgA/app.js" = true → r2.length ≤ r.length) ∧
      projectForUri c1Reg (some "/ws/pkgA/app.js") = c1Reg.projects.lookup r ∧
      (c1Reg.projects.lookup r).isSome = true) ∨
    ((∀ r ∈ c1Reg.projects.map Prod.fst,
        isRootPrefixOf r "/ws/pkgA/app.js" = false) ∧
      projectForUri c1Reg (some "/ws/pkgA/app.js") = none)) :=
  ⟨by decide, projectForUri_longest_root c1Reg "/ws/pkgA/app.js" (by decide)⟩

/-! ## C10 and C3: the completion path -/

/-- C10. When both completion providers succeed, the returned item list is
exactly the template-oriented provider's items followed by the
script-oriented provider's items, in that fixed order (`Promise.all`
preserves positional order, and the handler pushes template items first;
the embedding is deterministic, so completion timing cannot reorder
them). -/
theorem onCompletion_concat_order (tp sp : CompletionProvider)
    (pos : TextDocumentPositionParams)
    (t s : List CompletionItem)
    (ht : tp.provideCompletions pos = Except.ok t)
    (hs : sp.provideCompletions pos = Except.ok s) :
    onCompletion tp sp pos = t ++ s := by
  unfold onCompletion
  rw [ht, hs]

/-- Witness for C10: a template provider returning `[{label:"bar"}]` and a
script provider returning `[{label:"foo"}]` yield
`[{label:"bar"}, {label:"foo"}]`. -/
theorem onCompletion_concat_order_witness :
    tpBar.provideCompletions pos0 = Except.ok [{ label := "bar" }] ∧
    spFoo.provideCompletions pos0 = Except.ok [{ label := "foo" }] ∧
    onCompletion tpBar spFoo pos0 = [{ label := "bar" }] ++ [{ label := "foo" }] :=
  ⟨rfl, rfl, onCompletion_concat_order tpBar spFoo pos0 _ _ rfl rfl⟩

/-- Counterexample to C3 as stated: with the template provider throwing
and the script provider returning `[{label:"foo"}]`, the request does
succeed, but it returns `[]`, not `[{label:"foo"}]` — the script
provider's items are lost because one try/catch wraps both awaited
providers. -/
theorem onCompletion_template_throw_cex :
    tpThrow.provideCompletions pos0 = Except.error "template provider failed" ∧
    spFoo.provideCompletions pos0 = Except.ok [{ label := "foo" }] ∧
    onCompletion tpThrow spFoo pos0 = [] ∧
    onCompletion tpThrow spFoo pos0 ≠ [{ label := "foo" }] :=
  ⟨rfl, rfl, rfl, by decide⟩

/-- C3 as amended. When the template-oriented completion provider throws,
the request still succeeds (the exception is caught and logged, the
handler returns normally), but the catch wraps the combined await of both
providers, so the response is the empty item list: the script-oriented
provider's items are lost. -/
theorem onCompletion_template_throw_empty (tp sp : CompletionProvider)
    (pos : TextDocumentPositionParams) (e : String)
    (ht : tp.provideCompletions pos = Except.error e) :
    onCompletion tp sp pos = [] := by
  unfold onCompletion
  rw [ht]

/-- Witness for the amended C3: the throwing template provider with the
`[{label:"foo"}]` script provider produces `[]`. -/
theorem onCompletion_template_throw_empty_witness :
    tpThrow.provideCompletions pos0 = Except.error "template provider failed" ∧
    onCompletion tpThrow spFoo pos0 = [] :=
  ⟨rfl, onCompletion_template_throw_empty tpThrow spFoo pos0 _ rfl⟩

/-! ## C6: init hook invocation on registration -/

/-- The per-handler try/catch loop records one call per handler, in
order, with the arguments it received and the outcome it produced. -/
theorem runInitHandlers_eq_map (l : List InitHandler) (p : String) (s : Nat) :
    runInitHandlers l p s =
      l.map (fun h => RegEvent.initHookCalled h p s (h.run p s)) := by
  induction l with
  | nil => rfl
  | cons h rest ih => simp [runInitHandlers, ih]

/-- `Map.set` leaves its key present. -/
theorem mem_keys_mapSet {α : Type} (m : List (String × α)) (k : String) (v : α) :
    k ∈ (mapSet m k v).map Prod.fst := by
  induction m with
  | nil => simp [mapSet]
  | cons kv rest ih =>
    rcases kv with ⟨k2, v2⟩
    by_cases he : k2 = k
    · simp [mapSet, he]
    · simp only [mapSet, if_neg he, List.map_cons]
      exact List.mem_cons_of_mem _ ih

/-- C6. `onProjectAdd` invokes every init hook of the new Project's
composed provider set exactly once, synchronously, in provider order,
with the root path and the server handle: the trace extends by the
creation event followed by one call event per handler, each carrying
`path` and `server` and the handler's own outcome. A throwing hook is
caught (the function is total and the recorded `Except` outcome is
swallowed): the project is registered regardless, and the one-event-per-
handler equation shows every later hook is still invoked. -/
theorem onProjectAdd_init_hooks (env : AddonEnv) (p : String) (server : Nat)
    (st : RegState) :
    (onProjectAdd env p server st).events =
      st.events ++ RegEvent.projectCreated p ::
        (env.collectProjectProviders p).initHandlers.map
          (fun h => RegEvent.initHookCalled h p server (h.run p server)) ∧
    p ∈ (onProjectAdd env p server st).projects.map Prod.fst := by
  constructor
  · simp [onProjectAdd, mkProject, runInitHandlers_eq_map]
  · simp only [onProjectAdd]
    exact mem_keys_mapSet _ _ _

/-! ## C5: registry growth -/

/-- `Map.set` binds the key to exactly the given value. -/
theorem lookup_mapSet_self {α : Type} (m : List (String × α)) (k : String) (v : α) :
    (mapSet m k v).lookup k = some v := by
  induction m with
  | nil => simp [mapSet, List.lookup]
  | cons kv rest ih =>
    rcases kv with ⟨k2, v2⟩
    by_cases he : k2 = k
    · subst he
      simp [mapSet, List.lookup]
    · simp only [mapSet, if_neg he, List.lookup]
      have hkk : (k == k2) = false := by
        simp only [beq_eq_false_iff_ne]
        exact Ne.symm he
      rw [hkk]
      exact ih

/-- `Map.set` never removes or reorders keys: the old key sequence is a
prefix of the new one. -/
theorem keys_mapSet_grow {α : Type} (m : List (String × α)) (k : String) (v : α) :
    (m.map Prod.fst) <+: ((mapSet m k v).map Prod.fst) := by
  induction m with
  | nil =>
    simp only [List.map_nil]
    exact List.nil_prefix
  | cons kv rest ih =>
    rcases kv with ⟨k2, v2⟩
    by_cases he : k2 = k
    · simp [mapSet, he]
    · simp only [mapSet, if_neg he, List.map_cons]
      exact List.cons_prefix_cons.mpr ⟨rfl, ih⟩

/-- `onProjectAdd` only grows the key sequence. -/
theorem keys_grow_onProjectAdd (env : AddonEnv) (p : String) (server : Nat)
    (st : RegState) :
    (st.projects.map Prod.fst) <+:
      ((onProjectAdd env p server st).projects.map Prod.fst) := by
  simp only [onProjectAdd]
  exact keys_mapSet_grow _ _ _

/-- Each scan candidate either leaves the registry unchanged or registers
the candidate's containing directory. -/
theorem processCandidate_cases (env : ScanEnv) (aenv : AddonEnv) (ws : String)
    (server : Nat) (st : RegState) (c : String) :
    processCandidate env aenv ws server st c = st ∨
    processCandidate env aenv ws server st c =
      onProjectAdd aenv (pathDirname (pathJoin ws c)) server st := by
  unfold processCandidate
  rcases hc : classifyCandidate env (pathDirname (pathJoin ws c)) with e | b
  · cases hb : jsEndsWith (pathJoin ws c) "package.json"
    · right
      simp [hb]
    · left
      simp [hb, hc]
  · cases hb : jsEndsWith (pathJoin ws c) "package.json"
    · right
      simp [hb]
    · cases b
      · left
        simp [hb, hc]
      · right
        simp [hb, hc]

/-- The scan loop only grows the key sequence. -/
theorem keys_grow_scanCandidates (env : ScanEnv) (aenv : AddonEnv) (ws : String)
    (server : Nat) (l : List String) (st : RegState) :
    (st.projects.map Prod.fst) <+:
      ((scanCandidates env aenv ws server l st).projects.map Prod.fst) := by
  induction l generalizing st with
  | nil => exact List.prefix_refl _
  | cons c rest ih =>
    simp only [scanCandidates]
    refine List.IsPrefix.trans ?_ (ih (processCandidate env aenv ws server st c))
    rcases processCandidate_cases env aenv ws server st c with h | h
    · rw [h]
    · rw [h]
      exact keys_grow_onProjectAdd _ _ _ _

/-- Any single registry operation only grows the key sequence. -/
theorem keys_grow_applyOp (op : RegistryOp) (st : RegState) :
    (st.projects.map Prod.fst) <+: ((applyOp op st).projects.map Prod.fst) := by
  cases op with
  | scanOp e a w s =>
    simp only [applyOp, scanWorkspace]
    exact keys_grow_scanCandidates e a w s (e.walkSync w)
      { workspaceRoot := w, projects := st.projects, events := st.events }
  | addOp a p s =>
    simp only [applyOp]
    exact keys_grow_onProjectAdd a p s st

/-- Counterexample to C5 as stated: registering `/ws/app` and then
registering it again after the disk changed (so the composed provider
set differs) replaces the stored Project — the entry is not preserved,
and the second registration constructs a Project although the root is
already a key. -/
theorem onProjectAdd_replaces_cex :
    "/ws/app" ∈ c5St1.projects.map Prod.fst ∧
    c5St1.projects.lookup "/ws/app" ≠ c5St2.projects.lookup "/ws/app" := by
  constructor
  · decide
  · intro h
    have h1 : c5St1.projects.lookup "/ws/app" =
        some (mkProject envTrivial "/ws/app") := rfl
    have h2 : c5St2.projects.lookup "/ws/app" =
        some (mkProject pkgBEnv "/ws/app") := rfl
    rw [h1, h2] at h
    have h4 := congrArg (fun pr => pr.providers.symbolProviders)
      (Option.some.inj h)
    simp [mkProject, envTrivial, pkgBEnv, trivialProviders, pkgBProviders] at h4

/-- C5 as amended. Over every sequence of scan and registration
operations the registry's key sequence only grows (keys are never
removed or reordered; the old key list is a prefix of the new one), but
`onProjectAdd` performs no presence check: it always constructs a fresh
Project from the current environment and binds it over any existing
entry for that root. -/
theorem registry_keys_grow :
    (∀ (ops : List RegistryOp) (st : RegState),
      (st.projects.map Prod.fst) <+:
        ((applyOps ops st).projects.map Prod.fst)) ∧
    (∀ (aenv : AddonEnv) (p : String) (server : Nat) (st : RegState),
      ((onProjectAdd aenv p server st).projects.lookup p) =
        some (mkProject aenv p)) := by
  constructor
  · intro ops
    induction ops with
    | nil =>
      intro st
      exact List.prefix_refl _
    | cons op rest ih =>
      intro st
      exact List.IsPrefix.trans (keys_grow_applyOp op st) (ih (applyOp op st))
  · intro aenv p server st
    simp only [onProjectAdd]
    exact lookup_mapSet_self _ _ _

/-! ## C8: extension filtering of symbol providers -/

/-- The providers a document-symbol request actually invokes are either
none at all or exactly the extension-filtered sub-list of the global
array. -/
theorem onDocumentSymbol_trace_cases (fs : FileSystem)
    (dsp : List DocumentSymbolProvider) (filePath : String) :
    (onDocumentSymbol fs dsp (some filePath)).2 = [] ∨
    (onDocumentSymbol fs dsp (some filePath)).2 =
      dsp.filter (fun pr => pr.extensions.contains (extname filePath)) := by
  simp only [onDocumentSymbol]
  by_cases hp : filePath = ""
  · left
    rw [if_pos hp]
  · rw [if_neg hp]
    by_cases hl : (dsp.filter
        (fun pr => pr.extensions.contains (extname filePath))).length = 0
    · left
      rw [if_pos hl]
    · rw [if_neg hl]
      rcases hr : readFileSync fs filePath with e | content
      · left
        rfl
      · right
        rfl

/-- C8. A symbol provider whose declared extension set does not contain
the document's file extension is never invoked, and when no provider's
extension set matches, the request returns the empty result (before any
file read). -/
theorem documentSymbol_extension_filtering (fs : FileSystem)
    (dsp : List DocumentSymbolProvider) (filePath : String) :
    (∀ pr ∈ dsp, pr.extensions.contains (extname filePath) = false →
      pr ∉ (onDocumentSymbol fs dsp (some filePath)).2) ∧
    ((∀ pr ∈ dsp, pr.extensions.contains (extname filePath) = false) →
      onDocumentSymbol fs dsp (some filePath) = (Except.ok [], [])) := by
  constructor
  · intro pr hpr hext hmem
    rcases onDocumentSymbol_trace_cases fs dsp filePath with h | h
    · rw [h] at hmem
      simp at hmem
    · rw [h] at hmem
      have h2 := (List.mem_filter.mp hmem).2
      rw [hext] at h2
      exact absurd h2 (by decide)
  · intro hall
    have hfilter : dsp.filter
        (fun pr => pr.extensions.contains (extname filePath)) = [] := by
      refine List.filter_eq_nil_iff.mpr ?_
      intro pr hpr
      rw [hall pr hpr]
      decide
    simp only [onDocumentSymbol]
    by_cases hp : filePath = ""
    · rw [if_pos hp]
    · rw [if_neg hp, hfilter]
      simp

/-- Witness for C8: a `.js`-declaring provider is not invoked for a
`.hbs` document, and the request returns the empty result. -/
theorem documentSymbol_extension_filtering_witness :
    (globalJsProvider ∈ [globalJsProvider] ∧
      globalJsProvider.extensions.contains (extname "/ws/app.hbs") = false) ∧
    globalJsProvider ∉
      (onDocumentSymbol fsNone [globalJsProvider] (some "/ws/app.hbs")).2 ∧
    onDocumentSymbol fsNone [globalJsProvider] (some "/ws/app.hbs") =
      (Except.ok [], []) :=
  ⟨⟨List.mem_singleton.mpr rfl, by decide⟩,
    (documentSymbol_extension_filtering fsNone [globalJsProvider] "/ws/app.hbs").1
      globalJsProvider (List.mem_singleton.mpr rfl) (by decide),
    (documentSymbol_extension_filtering fsNone [globalJsProvider] "/ws/app.hbs").2
      (fun pr hpr => by
        rw [List.mem_singleton.mp hpr]
        decide)⟩

/-! ## C4: unreadable file content -/

/-- Counterexample to C4 as stated: a `.js` request whose path has a
matching provider but whose file is unreadable returns the thrown
`ENOENT` error, not an empty sequence — the `fs.readFileSync` call is
unguarded. -/
theorem documentSymbol_unreadable_cex :
    globalJsProvider.extensions.contains (extname "/proj/app.js") = true ∧
    (onDocumentSymbol fsNone [globalJsProvider] (some "/proj/app.js")).1 =
      Except.error "ENOENT: no such file /proj/app.js" ∧
    (onDocumentSymbol fsNone [globalJsProvider] (some "/proj/app.js")).1 ≠
      Except.ok [] := by
  refine ⟨by decide, rfl, ?_⟩
  intro h
  rw [show (onDocumentSymbol fsNone [globalJsProvider] (some "/proj/app.js")).1 =
    Except.error "ENOENT: no such file /proj/app.js" from rfl] at h
  exact Except.noConfusion h

/-- C4 as amended. When the path is resolvable, at least one provider
matches the extension, and the file content is not resolvable, the
document-symbol request propagates the read error (it does not return an
empty sequence); the empty result arises only for a falsy path or when no
provider matches. -/
theorem documentSymbol_unreadable_error (fs : FileSystem)
    (dsp : List DocumentSymbolProvider) (filePath : String)
    (hp : filePath ≠ "")
    (hprov : ∃ pr ∈ dsp, pr.extensions.contains (extname filePath) = true)
    (hfs : fs filePath = none) :
    (onDocumentSymbol fs dsp (some filePath)).1 =
      Except.error ("ENOENT: no such file " ++ filePath) := by
  obtain ⟨pr, hpr, hext⟩ := hprov
  have hne : dsp.filter (fun q => q.extensions.contains (extname filePath)) ≠ [] := by
    intro h0
    exact (List.filter_eq_nil_iff.mp h0 pr hpr) hext
  have hlen : ¬((dsp.filter
      (fun q => q.extensions.contains (extname filePath))).length = 0) := by
    rw [List.length_eq_zero]
    exact hne
  simp only [onDocumentSymbol]
  rw [if_neg hp, if_neg hlen,
    show readFileSync fs filePath =
      Except.error ("ENOENT: no such file " ++ filePath) from by
        simp [readFileSync, hfs]]

/-- Witness for the amended C4: the unreadable `.js` document with one
matching provider yields the `ENOENT` error. -/
theorem documentSymbol_unreadable_error_witness :
    ("/proj/app.js" ≠ "" ∧
      (∃ pr ∈ [globalJsProvider],
        pr.extensions.contains (extname "/proj/app.js") = true) ∧
      fsNone "/proj/app.js" = none) ∧
    (onDocumentSymbol fsNone [globalJsProvider] (some "/proj/app.js")).1 =
      Except.error ("ENOENT: no such file " ++ "/proj/app.js") :=
  ⟨⟨by decide, ⟨globalJsProvider, List.mem_singleton.mpr rfl, by decide⟩, rfl⟩,
    documentSymbol_unreadable_error fsNone [globalJsProvider] "/proj/app.js"
      (by decide) ⟨globalJsProvider, List.mem_singleton.mpr rfl, by decide⟩ rfl⟩

/-! ## C2: registration followed by a document-symbol request -/

/-- Counterexample to C2 as stated: after `els:registerProjectPath
/ws/pkgB`, the owning project of `/ws/pkgB/app.js` is the newly
registered project whose composed set contributes `addonJsProvider`, yet
the document-symbol request answers from the server's global provider
array (`global-symbol`), not from the project's composed provider set
(which would answer `addon-symbol`). -/
theorem registerProjectPath_symbol_selection_cex :
    projectForUri serverStPkgB.registry (some "/ws/pkgB/app.js") =
      some (mkProject pkgBEnv "/ws/pkgB") ∧
    (mkProject pkgBEnv "/ws/pkgB").providers.symbolProviders =
      [addonJsProvider] ∧
    (serverDocumentSymbol fsPkgB serverStPkgB (some "/ws/pkgB/app.js")).1 =
      Except.ok ["global-symbol"] ∧
    (specProjectDocumentSymbol fsPkgB (mkProject pkgBEnv "/ws/pkgB")
      (some "/ws/pkgB/app.js")).1 = Except.ok ["addon-symbol"] ∧
    (Except.ok ["global-symbol"] : Except String (List SymbolInformation)) ≠
      Except.ok ["addon-symbol"] := by
  refine ⟨rfl, rfl, rfl, rfl, ?_⟩
  intro h
  have h2 := Except.ok.inj h
  exact absurd h2 (by decide)

/-- C2 as amended. Executing `els:registerProjectPath` with a path
registers the project immediately — the registry binds the path to the
freshly composed Project with no re-scan, so longest-prefix lookup sees
it at once — but document-symbol requests select their providers from
the server's global `documentSymbolProviders` array, unaffected by the
registry contents. -/
theorem registerProjectPath_no_rescan :
    (∀ (aenv : AddonEnv) (server : Nat) (st : ServerState) (p : String)
        (rest : List String),
      ((onExecute aenv server st
          ("els:registerProjectPath" :: p :: rest)).1).registry.projects.lookup p =
        some (mkProject aenv p)) ∧
    (∀ (fs : FileSystem) (st : ServerState) (reg : RegState)
        (u : Option String),
      serverDocumentSymbol fs { st with registry := reg } u =
        serverDocumentSymbol fs st u) := by
  constructor
  · intro aenv server st p rest
    simp only [onExecute, if_pos]
    simp only [onProjectAdd]
    exact lookup_mapSet_self _ _ _
  · intro fs st reg u
    rfl

/-! ## C9: the initialize response -/

/-- C9. With no resolvable workspace root (neither a truthy `rootUri`
resolved through `uriToFilePath` nor, absent a `rootUri`, a truthy
`rootPath`), the initialize response is the empty capability set,
returned normally rather than as an error (the handler is total);
otherwise the response is exactly the declared capability advertisement —
definition, document-symbol and reference support, completion with
resolve support and the fixed trigger characters, the single command
`els:registerProjectPath` — merged with the document manager's negotiated
text-synchronization mode. -/
theorem onInitRequest_capabilities (u2f : String → Option String)
    (env : ScanEnv) (aenv : AddonEnv) (syncKind : Nat) (server : Nat)
    (st : ServerState) (rootUri rootPath : Option String)
    (hc : st.capabilities = declaredCapabilities) :
    (jsTruthy (resolveWorkspaceRoot u2f rootUri rootPath) = false →
      (onInitRequest u2f env aenv syncKind server st rootUri rootPath).1 =
        { capabilities := emptyCapabilities }) ∧
    (jsTruthy (resolveWorkspaceRoot u2f rootUri rootPath) = true →
      (onInitRequest u2f env aenv syncKind server st rootUri rootPath).1 =
        { capabilities :=
          { definitionProvider := some true
            executeCommandProvider := some
              { commands := ["els:registerProjectPath"] }
            documentSymbolProvider := some true
            referencesProvider := some true
            completionProvider := some
              { resolveProvider := true
                triggerCharacters :=
                  [".", "::", "=", "/", "\x7b\x7b", "(", "<", "@", "this."] }
            textDocumentSync := some syncKind } }) := by
  constructor
  · intro hf
    simp only [onInitRequest]
    rcases hres : resolveWorkspaceRoot u2f rootUri rootPath with _ | root
    · rfl
    · rw [hres] at hf
      rw [hf]
  · intro ht
    simp only [onInitRequest]
    rcases hres : resolveWorkspaceRoot u2f rootUri rootPath with _ | root
    · rw [hres] at ht
      simp [jsTruthy] at ht
    · rw [hres] at ht
      rw [ht, hc]
      rfl

/-- Witness for C9: with no `rootUri` and the root path `/ws`, the
resolved root is truthy and the response is the full advertisement with
sync kind 1. -/
theorem onInitRequest_capabilities_witness :
    (serverSt0.capabilities = declaredCapabilities ∧
      jsTruthy (resolveWorkspaceRoot u2f9 none (some "/ws")) = true) ∧
    (onInitRequest u2f9 c7Scan envTrivial 1 0 serverSt0 none
        (some "/ws")).1 =
      { capabilities :=
        { definitionProvider := some true
          executeCommandProvider := some
            { commands := ["els:registerProjectPath"] }
          documentSymbolProvider := some true
          referencesProvider := some true
          completionProvider := some
            { resolveProvider := true
              triggerCharacters :=
                [".", "::", "=", "/", "\x7b\x7b", "(", "<", "@", "this."] }
          textDocumentSync := some 1 } } :=
  ⟨⟨rfl, rfl⟩,
    (onInitRequest_capabilities u2f9 c7Scan envTrivial 1 0 serverSt0 none
      (some "/ws") rfl).2 rfl⟩

/-! ## C7: marker classification during the workspace scan -/

/-- The basename's characters are a suffix of the path's characters. -/
theorem pathBasename_suffix_data (s : String) :
    (pathBasename s).data <:+ s.data := by
  have h1 : s.data.reverse.takeWhile (fun c => c != '/') <+: s.data.reverse :=
    List.takeWhile_prefix _
  have h2 := List.reverse_suffix.mpr h1
  rw [List.reverse_reverse] at h2
  simpa [pathBasename] using h2

/-- The joined path ends with the candidate's characters. -/
theorem pathJoin_suffix_data (ws c : String) :
    c.data <:+ (pathJoin ws c).data := by
  unfold pathJoin
  split
  · exact List.suffix_refl _
  · split
    · exact List.suffix_append ws.data c.data
    · exact List.suffix_append (ws ++ "/").data c.data

/-- `jsEndsWith` decides the character-level suffix relation. -/
theorem jsEndsWith_iff (s t : String) :
    jsEndsWith s t = true ↔ t.data <:+ s.data := by
  simp [jsEndsWith, List.isSuffixOf_iff_suffix]

/-- Two suffixes of one list are nested by length. -/
theorem suffix_of_suffix_length_le {α : Type} {l1 l2 l3 : List α}
    (h1 : l1 <:+ l3) (h2 : l2 <:+ l3) (h : l1.length ≤ l2.length) :
    l1 <:+ l2 := by
  have p1 := List.reverse_prefix.mpr h1
  have p2 := List.reverse_prefix.mpr h2
  have p3 := List.prefix_of_prefix_length_le p1 p2 (by simpa using h)
  exact List.reverse_prefix.mp p3

/-- A package-manifest candidate makes the joined path end with the
manifest name (the dispatch test of the scan loop). -/
theorem jsEndsWith_package_of_basename (ws c : String)
    (hb : pathBasename c = "package.json") :
    jsEndsWith (pathJoin ws c) "package.json" = true := by
  rw [jsEndsWith_iff]
  have h1 : ("package.json" : String).data <:+ c.data := by
    rw [← hb]
    exact pathBasename_suffix_data c
  exact h1.trans (pathJoin_suffix_data ws c)

/-- A build-config candidate's joined path does not end with the
manifest name. -/
theorem not_jsEndsWith_package_of_build (ws c : String)
    (hb : pathBasename c = "ember-cli-build.js") :
    jsEndsWith (pathJoin ws c) "package.json" = false := by
  cases he : jsEndsWith (pathJoin ws c) "package.json"
  · rfl
  · exfalso
    have h1 : ("package.json" : String).data <:+ (pathJoin ws c).data :=
      (jsEndsWith_iff _ _).mp he
    have h2 : ("ember-cli-build.js" : String).data <:+ (pathJoin ws c).data := by
      have h0 := pathBasename_suffix_data c
      rw [hb] at h0
      exact h0.trans (pathJoin_suffix_data ws c)
    have h3 := suffix_of_suffix_length_le h1 h2 (by decide)
    have h4 := List.isSuffixOf_iff_suffix.mpr h3
    exact absurd h4 (by decide)

/-- The trace extractor distributes over appended traces. -/
theorem addedRoots_append (a b : List RegEvent) :
    addedRoots (a ++ b) = addedRoots a ++ addedRoots b := by
  simp [addedRoots]

/-- Hook-call events record no project creation. -/
theorem addedRoots_runInitHandlers (l : List InitHandler) (p : String) (s : Nat) :
    addedRoots (runInitHandlers l p s) = [] := by
  induction l with
  | nil => rfl
  | cons h rest ih =>
    simpa [runInitHandlers, addedRoots, List.filterMap_cons] using ih

/-- A registration appends exactly one created root to the trace. -/
theorem addedRoots_onProjectAdd (env : AddonEnv) (p : String) (server : Nat)
    (st : RegState) :
    addedRoots (onProjectAdd env p server st).events =
      addedRoots st.events ++ [p] := by
  simp only [onProjectAdd]
  rw [addedRoots_append]
  have h1 : addedRoots (RegEvent.projectCreated p ::
      runInitHandlers (mkProject env p).providers.initHandlers p server) =
      p :: addedRoots (runInitHandlers
        (mkProject env p).providers.initHandlers p server) := by
    simp [addedRoots, List.filterMap_cons]
  rw [h1, addedRoots_runInitHandlers]

/-- One scan candidate contributes exactly the root the specified
promotion rule assigns to it. -/
theorem processCandidate_addedRoots (env : ScanEnv) (aenv : AddonEnv)
    (ws : String) (server : Nat) (st : RegState) (c : String)
    (hm : pathBasename c = "ember-cli-build.js" ∨
      pathBasename c = "package.json") :
    addedRoots (processCandidate env aenv ws server st c).events =
      addedRoots st.events ++ (specPromotedRoot env ws c).toList := by
  rcases hm with hb | hb
  · simp only [processCandidate, specPromotedRoot,
      not_jsEndsWith_package_of_build ws c hb, hb]
    simp [addedRoots_onProjectAdd]
  · have hEnds := jsEndsWith_package_of_basename ws c hb
    have hbne : ¬(pathBasename c = "ember-cli-build.js") := by
      rw [hb]
      decide
    simp only [processCandidate, specPromotedRoot, hEnds, if_neg hbne]
    rcases hc : classifyCandidate env (pathDirname (pathJoin ws c)) with e | b
    · simp
    · cases b
      · simp
      · simp [addedRoots_onProjectAdd]

/-- The scan loop's created roots are the concatenation of the
per-candidate promotions. -/
theorem scanCandidates_addedRoots (env : ScanEnv) (aenv : AddonEnv)
    (ws : String) (server : Nat) (l : List String) (st : RegState)
    (hm : ∀ c ∈ l, pathBasename c = "ember-cli-build.js" ∨
      pathBasename c = "package.json") :
    addedRoots (scanCandidates env aenv ws server l st).events =
      addedRoots st.events ++ l.filterMap (specPromotedRoot env ws) := by
  induction l generalizing st with
  | nil => simp [scanCandidates]
  | cons c rest ih =>
    simp only [scanCandidates]
    rw [ih _ (fun x hx => hm x (List.mem_cons_of_mem _ hx))]
    rw [processCandidate_addedRoots env aenv ws server st c
      (hm c (List.mem_cons_self _ _))]
    rw [List.filterMap_cons]
    rcases h : specPromotedRoot env ws c with _ | d
    · simp
    · simp

/-- C7. For every scan whose candidates carry the two marker basenames,
the roots registered by `initialize` are exactly those of the specified
promotion rule: a build-config candidate's containing directory is
promoted unconditionally; a package-manifest candidate's containing
directory is promoted exactly when the kind-classification predicate
succeeds positively; a predicate that throws drops only its own
candidate (the equation keeps every later candidate's contribution). -/
theorem scanWorkspace_marker_promotion (env : ScanEnv) (aenv : AddonEnv)
    (ws : String) (server : Nat) (st : RegState)
    (hm : ∀ c ∈ env.walkSync ws,
      pathBasename c = "ember-cli-build.js" ∨
      pathBasename c = "package.json") :
    addedRoots (scanWorkspace env aenv ws server st).events =
      addedRoots st.events ++
        (env.walkSync ws).filterMap (specPromotedRoot env ws) := by
  unfold scanWorkspace
  exact scanCandidates_addedRoots env aenv ws server (env.walkSync ws) _ hm

/-- Witness for C7: the four-candidate scan of `c7Scan` — a passing
manifest, a throwing manifest, a later build-config marker and a
negatively classified manifest — satisfies the promotion equation
(registering `/ws/pkgA` and `/ws/pkgB` only). -/
theorem scanWorkspace_marker_promotion_witness :
    (∀ c ∈ c7Scan.walkSync "/ws",
      pathBasename c = "ember-cli-build.js" ∨
      pathBasename c = "package.json") ∧
    addedRoots (scanWorkspace c7Scan envTrivial "/ws" 0 emptyReg).events =
      addedRoots emptyReg.events ++
        (c7Scan.walkSync "/ws").filterMap (specPromotedRoot c7Scan "/ws") :=
  ⟨by decide,
    scanWorkspace_marker_promotion c7Scan envTrivial "/ws" 0 emptyReg
      (by decide)⟩
